import Mathlib

/-!
Verification of the MailSense inbox RAG engine.

This development gives a shallow embedding of the core retrieval and
indexing engine of the repository (`backend/RAG/rag_service.py`,
`backend/RAG/rag_backgroundservice.py`, `backend/router/rag_router.py`)
and proves or refutes the specification claims about it.

Conventions of the embedding:
* Python strings are embedded as `List Char` (`Str`); all inputs in the
  theorems are ASCII, matching the lowercasing done by the source.
* Python `time.time()` instants and float scores are embedded as exact
  rationals `ℚ`; the source's float arithmetic is modelled exactly.
* Python dicts are embedded as association lists with replace-on-set
  semantics; `del` is embedded as key removal.
-/

abbrev Str := List Char

def str (s : String) : Str := s.data

/-- Python substring test `needle in hay` on strings. -/
def isSubOf (needle hay : Str) : Bool := decide (needle <:+: hay)

/-- Python whitespace class (`str.split()` / `str.strip()` semantics). -/
def isPySpace (c : Char) : Bool :=
  c = ' ' || c = '\t' || c = '\n' || c = '\x0d' || c = '\x0b' || c = '\x0c'

/-- Python `str.strip()`: drop leading and trailing whitespace. -/
def pyStrip (s : Str) : Str :=
  ((s.dropWhile isPySpace).reverse.dropWhile isPySpace).reverse

/-- Python `str.split()` with no separator: whitespace-delimited words. -/
def pySplit (s : Str) : List Str :=
  (s.splitOnP isPySpace).filter (fun w => w ≠ [])

/-- Python `str.lower()` (ASCII). -/
def pyLower (s : Str) : Str := s.map Char.toLower

-- ---------------------------------------------------------------------------
-- TTLCache (rag_service.py lines 33-68)
-- ---------------------------------------------------------------------------

/-- Association-list lookup, mirroring Python dict key lookup. -/
def alistLookup {α : Type} (store : List (Str × α)) (k : Str) : Option α :=
  match store with
  | [] => none
  | (k', v) :: rest => if k' = k then some v else alistLookup rest k

/-- Python dict assignment `d[k] = v`: replace in place or append. -/
def alistSet {α : Type} (store : List (Str × α)) (k : Str) (v : α) : List (Str × α) :=
  match store with
  | [] => [(k, v)]
  | (k', v') :: rest =>
      if k' = k then (k, v) :: rest else (k', v') :: alistSet rest k v

/-- Python `del d[k]` (dict keys are unique, so removal of all bindings
agrees with removal of the one binding). -/
def alistErase {α : Type} (store : List (Str × α)) (k : Str) : List (Str × α) :=
  store.filter (fun p => p.1 ≠ k)

/-- `TTLCache.__init__`: store maps key to `(value, inserted_at)`. -/
structure TTLCache (α : Type) where
  store : List (Str × (α × ℚ))
  ttl_seconds : ℚ

namespace TTLCache

/-- `TTLCache.get`, with the ambient `time.time()` passed as `now`.
Returns the cached value (or `none`) together with the cache after the
call (the call deletes the entry when it is expired). -/
def get {α : Type} (c : TTLCache α) (k : Str) (now : ℚ) : Option α × TTLCache α :=
  match alistLookup c.store k with
  | none => (none, c)
  | some (v, inserted_at) =>
      if now - inserted_at > c.ttl_seconds then
        (none, { c with store := alistErase c.store k })
      else
        (some v, c)

/-- `TTLCache.set`, with the ambient `time.time()` passed as `now`. -/
def set {α : Type} (c : TTLCache α) (k : Str) (v : α) (now : ℚ) : TTLCache α :=
  { c with store := alistSet c.store k (v, now) }

end TTLCache

theorem alistLookup_alistSet {α : Type} (store : List (Str × α)) (k : Str) (v : α) :
    alistLookup (alistSet store k v) k = some v := by
  induction store with
  | nil => simp [alistSet, alistLookup]
  | cons p rest ih =>
      obtain ⟨k', v'⟩ := p
      by_cases h : k' = k
      · simp [alistSet, alistLookup, h]
      · simp [alistSet, alistLookup, h, ih]

theorem alistLookup_alistErase {α : Type} (store : List (Str × α)) (k : Str) :
    alistLookup (alistErase store k) k = none := by
  induction store with
  | nil => simp [alistErase, alistLookup]
  | cons p rest ih =>
      obtain ⟨k', v'⟩ := p
      by_cases h : k' = k
      · simpa [alistErase, alistLookup, h] using ih
      · simpa [alistErase, alistLookup, h] using ih

-- ---------------------------------------------------------------------------
-- Chunking (rag_service.py lines 302-357)
-- ---------------------------------------------------------------------------

/-- `self.chunk_size` set in `InboxOnlyRAG.__init__`. -/
def chunk_size : Nat := 800

/-- Python `range(0, stop, step)` for positive `step`. -/
def pyRange (stop step : Nat) : List Nat :=
  (List.range ((stop + step - 1) / step)).map (fun i => i * step)

/-- `InboxOnlyRAG.chunk_text`: one chunk when the text fits in
`chunk_size`, else slices `text[i:i+chunk_size]` with index `i // chunk_size`. -/
def chunk_text (text : Str) : List (Str × Nat) :=
  if text.length ≤ chunk_size then [(text, 0)]
  else (pyRange text.length chunk_size).map
    (fun i => ((text.drop i).take chunk_size, i / chunk_size))

/-- The `FROM/SUBJECT/DATE/BODY` concatenation built by
`process_email_batch` before chunking. -/
def emailText (sender subject date body : Str) : Str :=
  str "FROM: " ++ sender ++ str "\nSUBJECT: " ++ subject ++
    str "\nDATE: " ++ date ++ str "\n\n" ++ body

theorem chunk_text_length (text : Str) :
    (chunk_text text).length =
      if text.length ≤ chunk_size then 1 else (text.length + chunk_size - 1) / chunk_size := by
  by_cases h : text.length ≤ chunk_size
  · simp [chunk_text, h]
  · simp [chunk_text, h, pyRange]

/-- Body used in the `C3` counterexample: exactly `chunk_size` characters. -/
def c3Body : Str := List.replicate 800 'x'

/-- C3: the claim is false on the code. An email whose body has exactly
800 characters (≤ chunk_size) but whose header lines push the
concatenated text over 800 characters is split into two chunks, not one. -/
theorem c3_text_length :
    (emailText (str "a") (str "b") (str "c") c3Body).length = 828 := by
  simp only [emailText, str, c3Body, List.length_append, List.length_replicate]
  decide

theorem c3_counterexample :
    c3Body.length ≤ chunk_size ∧
      (chunk_text (emailText (str "a") (str "b") (str "c") c3Body)).length ≠ 1 := by
  constructor
  · simp only [c3Body, List.length_replicate, chunk_size]
    exact le_rfl
  · rw [chunk_text_length, c3_text_length]
    decide

/-- C3 (amended): `process_email_batch` chunks the full
`FROM/SUBJECT/DATE/BODY` concatenation, so an email yields exactly one
chunk (with chunk_index 0) iff that concatenation has length at most
`chunk_size = 800`; otherwise it yields `⌈len/800⌉` chunks. -/
theorem c3_amended (sender subject date body : Str) :
    (( (emailText sender subject date body).length ≤ chunk_size) →
        chunk_text (emailText sender subject date body) =
          [(emailText sender subject date body, 0)]) ∧
    ((¬ (emailText sender subject date body).length ≤ chunk_size) →
        (chunk_text (emailText sender subject date body)).length =
          ((emailText sender subject date body).length + chunk_size - 1) / chunk_size) := by
  constructor
  · intro h
    simp [chunk_text, h]
  · intro h
    rw [chunk_text_length]
    simp [h]

/-- C3 amended witness: a short email is kept as a single chunk with
chunk index 0. -/
theorem c3_amended_witness :
    chunk_text (emailText (str "a") (str "b") (str "c") (str "hi")) =
      [(emailText (str "a") (str "b") (str "c") (str "hi"), 0)] :=
  (c3_amended (str "a") (str "b") (str "c") (str "hi")).1 (by decide)

/-- C8: after `set(k, v)` at time `t0`, a `get(k)` at time `t` with
`t − t0 ≤ ttl` returns exactly `v`; a `get(k)` after the TTL has elapsed
returns empty and removes the entry, so the key is absent afterwards. -/
theorem c8_ttlcache_set_then_get {α : Type} (c : TTLCache α) (k : Str) (v : α) (t0 t : ℚ) :
    (t - t0 ≤ c.ttl_seconds → ((c.set k v t0).get k t).1 = some v) ∧
    (¬ t - t0 ≤ c.ttl_seconds →
        ((c.set k v t0).get k t).1 = none ∧
          alistLookup (((c.set k v t0).get k t).2).store k = none) := by
  have hl : alistLookup (alistSet c.store k (v, t0)) k = some (v, t0) :=
    alistLookup_alistSet c.store k (v, t0)
  constructor
  · intro h
    simp only [TTLCache.get, hl, TTLCache.set]
    rw [if_neg (not_lt.2 h)]
  · intro h
    have hgt : t - t0 > c.ttl_seconds := lt_of_not_le h
    simp only [TTLCache.get, hl, TTLCache.set]
    rw [if_pos hgt]
    exact ⟨rfl, alistLookup_alistErase (alistSet c.store k (v, t0)) k⟩

/-- C8 witness: with TTL 300, a value set at time 0 is returned at time
100 and gone (value and entry both) at time 400. -/
theorem c8_witness :
    ((TTLCache.set ⟨[], 300⟩ (str "k") (7 : ℕ) 0).get (str "k") 100).1 = some 7 ∧
    (((TTLCache.set ⟨[], 300⟩ (str "k") (7 : ℕ) 0).get (str "k") 400).1 = none ∧
      alistLookup (((TTLCache.set ⟨[], 300⟩ (str "k") (7 : ℕ) 0).get (str "k") 400).2).store
        (str "k") = none) :=
  ⟨(c8_ttlcache_set_then_get ⟨[], 300⟩ (str "k") 7 0 100).1 (by norm_num),
   (c8_ttlcache_set_then_get ⟨[], 300⟩ (str "k") 7 0 400).2 (by norm_num)⟩

-- ---------------------------------------------------------------------------
-- Sender matching (rag_service.py lines 169-296)
-- ---------------------------------------------------------------------------

/-- Character class `[a-z0-9]` (inputs are lowercased by the source
before these classes are applied). -/
def isLowerAlnum (c : Char) : Bool :=
  ('a' ≤ c && c ≤ 'z') || ('0' ≤ c && c ≤ '9')

/-- Character class `[a-z0-9._+-]` of the email-address regex. -/
def emailChar1 (c : Char) : Bool :=
  isLowerAlnum c || c = '.' || c = '_' || c = '+' || c = '-'

/-- Character class `[a-z0-9.-]` of the email-address regex (domain part). -/
def emailChar2 (c : Char) : Bool :=
  isLowerAlnum c || c = '.' || c = '-'

/-- One attempt of the regex `([a-z0-9._+-]+@[a-z0-9.-]+)` anchored at
the head of `s`: a nonempty greedy class-1 run, an `@`, and a nonempty
greedy class-2 run. -/
def tryEmailAt (s : Str) : Option Str :=
  let p := s.takeWhile emailChar1
  if p = [] then none
  else
    match s.drop p.length with
    | '@' :: rest =>
        let q := rest.takeWhile emailChar2
        if q = [] then none else some (p ++ '@' :: q)
    | _ => none

/-- `re.search(r'([a-z0-9._+-]+@[a-z0-9.-]+)', s)`: leftmost match. -/
def findEmailAddress : Str → Option Str
  | [] => none
  | c :: rest =>
      match tryEmailAt (c :: rest) with
      | some m => some m
      | none => findEmailAddress rest

/-- `re.match(r'([^@]+)@', email)` followed by
`re.sub(r'[._-]', ' ', group(1))`: the local part with separators
spaced out. -/
def usernameOf (email : Str) : Str :=
  let p := email.takeWhile (fun c => c ≠ '@')
  if p ≠ [] ∧ p.length < email.length then
    p.map (fun c => if c = '.' || c = '_' || c = '-' then ' ' else c)
  else []

/-- `InboxOnlyRAG.normalize_name`: lowercase, drop characters outside
`[a-z0-9\s]`, collapse whitespace runs to single spaces. -/
def normalize_name (name : Str) : Str :=
  List.intercalate [' ']
    (pySplit ((pyLower name).filter (fun c => isLowerAlnum c || isPySpace c)))

/-- The display-name extraction of `extract_name_parts`:
`re.match(r'^([^<]+)\s*<', sender_lower)` stripped, else the whole
sender when no email address was found. -/
def displayNameOf (sender_lower email_address : Str) : Str :=
  let p := sender_lower.takeWhile (fun c => c ≠ '<')
  if p ≠ [] ∧ p.length < sender_lower.length then pyStrip p
  else if email_address = [] then pyStrip sender_lower
  else []

/-- `InboxOnlyRAG.extract_name_parts`: `(full_name, email_address,
email_username)`, the first and last normalized. -/
def extract_name_parts (sender : Str) : Str × Str × Str :=
  let sender_lower := pyLower sender
  let email_address := (findEmailAddress sender_lower).getD []
  let email_username := if email_address ≠ [] then usernameOf email_address else []
  let full_name := displayNameOf sender_lower email_address
  (if full_name ≠ [] then normalize_name full_name else [],
   email_address,
   if email_username ≠ [] then normalize_name email_username else [])

/-- The fixed honorific / name-prefix list of
`_generate_search_variants`. -/
def namePrefixes : List Str :=
  [str "syed", str "syeda", str "muhammad", str "mohd", str "md", str "hafiz",
   str "sheikh", str "malik", str "rana", str "raja", str "ch", str "chaudhry",
   str "mirza", str "khawaja", str "miss", str "mrs", str "mr", str "dr"]

/-- `InboxOnlyRAG._generate_search_variants` (the Python function builds
a set; here the variants are listed with possible duplicates, which is
equivalent for the existential use made of them). -/
def _generate_search_variants (search_term : Str) : List Str :=
  let term := pyStrip (pyLower search_term)
  let term_clean := term.filter isLowerAlnum
  let base := [term, term_clean]
  let fromPrefixes :=
    if ¬ term.contains ' ' then
      (namePrefixes.filter
          (fun p => p.isPrefixOf term_clean && decide (p.length + 1 < term_clean.length))).flatMap
        (fun p => [p ++ ' ' :: term_clean.drop p.length, term_clean.drop p.length, p])
    else []
  let fromSpaces :=
    if term.contains ' ' then
      ((pySplit term).filter (fun w => decide (3 ≤ w.length))) ++ [(pySplit term).flatten]
    else []
  base ++ fromPrefixes ++ fromSpaces

/-- The combined canonical sender blob
`f"{full_name_clean} {email_address_clean} {email_username_clean}"`
built inside `sender_matches`. -/
def senderBlob (sender : Str) : Str :=
  let parts := extract_name_parts sender
  (parts.1.filter (fun c => isLowerAlnum c || c = ' ')) ++
    ' ' :: (parts.2.1.filter isLowerAlnum) ++
    ' ' :: (parts.2.2.filter isLowerAlnum)

/-- The per-variant matching loop of `sender_matches`: any variant whose
canonical form is a substring of the canonical email address, display
name (with or without interior spaces) or local part. -/
def variantHit (sender search_term' : Str) : Bool :=
  let parts := extract_name_parts sender
  let email_address_clean := parts.2.1.filter isLowerAlnum
  let full_name_clean := parts.1.filter (fun c => isLowerAlnum c || c = ' ')
  let email_username_clean := parts.2.2.filter isLowerAlnum
  (_generate_search_variants search_term').any (fun variant =>
    let v_clean := variant.filter isLowerAlnum
    if v_clean = [] then false
    else
      isSubOf v_clean email_address_clean ||
      isSubOf v_clean (full_name_clean.filter (fun c => c ≠ ' ')) ||
      isSubOf variant full_name_clean ||
      isSubOf v_clean email_username_clean)

/-- The token-overlap branch of `sender_matches`: at least two words of
length ≥ 3 and all of them substrings of the de-spaced sender blob. -/
def tokenOverlapHit (sender search_term' : Str) : Bool :=
  let search_words := (pySplit search_term').filter (fun w => decide (3 ≤ w.length))
  decide (2 ≤ search_words.length) &&
    decide (search_words.length ≤
      search_words.countP (fun w =>
        isSubOf (w.filter isLowerAlnum) ((senderBlob sender).filter (fun c => c ≠ ' '))))

/-- `InboxOnlyRAG.sender_matches`. -/
def sender_matches (sender search_term : Str) : Bool :=
  if search_term = [] || sender = [] then false
  else
    let search_term' := pyStrip (pyLower search_term)
    variantHit sender search_term' || tokenOverlapHit sender search_term'

/-- C4: the claim is false on the code. For the sender `john@x.com` and
the multi-word term `john zzz` (two tokens of length ≥ 3),
`sender_matches` returns true via the per-variant substring strategy
(the variant `john` occurs in the canonical email address) even though
the token `zzz` does not appear in the combined canonical sender blob,
so all-token presence is not a necessary condition for a true result. -/
theorem c4_counterexample :
    sender_matches (str "john@x.com") (str "john zzz") = true ∧
    2 ≤ ((pySplit (pyStrip (pyLower (str "john zzz")))).filter
          (fun w => decide (3 ≤ w.length))).length ∧
    ¬ (∀ w ∈ (pySplit (pyStrip (pyLower (str "john zzz")))).filter
          (fun w => decide (3 ≤ w.length)),
        isSubOf (w.filter isLowerAlnum)
          ((senderBlob (str "john@x.com")).filter (fun c => c ≠ ' ')) = true) := by
  refine ⟨by decide, by decide, ?_⟩
  intro h
  exact absurd (h (str "zzz") (by decide)) (by decide)

/-- C4 (amended): all-token presence in the combined canonical sender
blob is a *sufficient* condition: for a nonempty sender and a search
term whose lowercased, stripped form has at least two tokens of length
≥ 3, if every such token appears in the de-spaced canonical sender blob
then `sender_matches` returns true (it may also return true through the
per-variant substring strategies even when some token is absent). -/
theorem c4_amended (sender search_term : Str) (hs : sender ≠ []) (ht : search_term ≠ [])
    (hwords : 2 ≤ ((pySplit (pyStrip (pyLower search_term))).filter
        (fun w => decide (3 ≤ w.length))).length)
    (hall : ∀ w ∈ (pySplit (pyStrip (pyLower search_term))).filter
        (fun w => decide (3 ≤ w.length)),
        isSubOf (w.filter isLowerAlnum)
          ((senderBlob sender).filter (fun c => c ≠ ' ')) = true) :
    sender_matches sender search_term = true := by
  have h2 : tokenOverlapHit sender (pyStrip (pyLower search_term)) = true := by
    unfold tokenOverlapHit
    simp only [Bool.and_eq_true, decide_eq_true_eq]
    exact ⟨hwords, le_of_eq (List.countP_eq_length.mpr hall).symm⟩
  unfold sender_matches
  rw [if_neg (by simp [hs, ht])]
  simp [h2]

/-- C4 amended witness: `alice wong` matches
`Alice Wong <alice.w@x.com>` through the all-tokens rule. -/
theorem c4_amended_witness :
    sender_matches (str "Alice Wong <alice.w@x.com>") (str "alice wong") = true :=
  c4_amended (str "Alice Wong <alice.w@x.com>") (str "alice wong")
    (by decide) (by decide) (by decide) (by decide)

-- ---------------------------------------------------------------------------
-- Context trimming (rag_service.py lines 649-664, 809-829)
-- ---------------------------------------------------------------------------

/-- `self.max_context_tokens` and `self.chars_per_token` from
`InboxOnlyRAG.__init__`; `answer_question` passes their product as
`max_chars`. -/
def max_context_tokens : Nat := 4000

def chars_per_token : Nat := 4

def maxContextChars : Nat := max_context_tokens * chars_per_token

/-- The literal appended by `trim_context_to_token_limit` when it
truncates a block. -/
def truncationMarker : Str := str "...[truncated]"

def totalLen (parts : List Str) : Nat := (parts.map List.length).sum

/-- The `for part in context_parts` loop of
`trim_context_to_token_limit`, carrying `current_chars`. -/
def trimAux (max_chars : Nat) : List Str → Nat → List Str
  | [], _ => []
  | part :: rest, current =>
      if max_chars < current + part.length then
        if 200 < max_chars - current then
          [part.take (max_chars - current) ++ truncationMarker]
        else []
      else part :: trimAux max_chars rest (current + part.length)

/-- `InboxOnlyRAG.trim_context_to_token_limit`. -/
def trim_context_to_token_limit (context_parts : List Str) (max_chars : Nat) : List Str :=
  if totalLen context_parts ≤ max_chars then context_parts
  else trimAux max_chars context_parts 0

theorem trimAux_totalLen_le (max_chars : Nat) (parts : List Str) :
    ∀ current, current ≤ max_chars →
      totalLen (trimAux max_chars parts current) + current ≤
        max_chars + truncationMarker.length := by
  induction parts with
  | nil =>
      intro current hc
      simpa [trimAux, totalLen] using le_trans hc (Nat.le_add_right _ _)
  | cons part rest ih =>
      intro current hc
      by_cases hov : max_chars < current + part.length
      · by_cases hrem : 200 < max_chars - current
        · have htake : (part.take (max_chars - current)).length ≤ max_chars - current :=
            le_of_eq_of_le (List.length_take _ _) (min_le_left _ _)
          simp only [trimAux, if_pos hov, if_pos hrem, totalLen, List.map_cons,
            List.map_nil, List.sum_cons, List.sum_nil, List.length_append]
          omega
        · simp only [trimAux, if_pos hov, if_neg hrem, totalLen, List.map_nil, List.sum_nil]
          omega
      · have hfit : current + part.length ≤ max_chars := le_of_not_lt hov
        have := ih (current + part.length) hfit
        simp only [trimAux, if_neg hov, totalLen, List.map_cons, List.sum_cons] at this ⊢
        omega

theorem trimAux_keep (max_chars : Nat) (pre : List Str) :
    ∀ (rest : List Str) (current : Nat), current + totalLen pre ≤ max_chars →
      trimAux max_chars (pre ++ rest) current =
        pre ++ trimAux max_chars rest (current + totalLen pre) := by
  induction pre with
  | nil =>
      intro rest current _
      simp [totalLen]
  | cons part pre' ih =>
      intro rest current hfit
      have hlen : totalLen (part :: pre') = part.length + totalLen pre' := by
        simp [totalLen]
      have hov : ¬ max_chars < current + part.length := by omega
      have h2 := ih rest (current + part.length) (by omega)
      have h3 : current + part.length + totalLen pre' = current + totalLen (part :: pre') := by
        omega
      rw [h3] at h2
      simp only [List.cons_append, trimAux, if_neg hov, List.append_eq, h2]

/-- C5: the claim is false on the code in two ways, shown on concrete
inputs with `max_chars = max_context_tokens × 4 = 16000`.
(1) With blocks of 15799 and 1000 characters, the truncated block keeps
16000 − 15799 = 201 characters *plus* the 14-character marker, so the
output totals 16014 > 16000 characters, violating the claimed budget.
(2) With blocks of 15800 and 300 characters, exactly 200 characters of
budget remain, yet the overflowing block is dropped entirely rather
than truncated, so "truncates iff at least 200 characters remain" fails
at 200. -/
theorem c5_counterexample :
    maxContextChars <
      totalLen (trim_context_to_token_limit
        [List.replicate 15799 'a', List.replicate 1000 'b'] maxContextChars) ∧
    trim_context_to_token_limit
        [List.replicate 15800 'a', List.replicate 300 'b'] maxContextChars =
      [List.replicate 15800 'a'] := by
  have hm : maxContextChars = 16000 := by norm_num [maxContextChars, max_context_tokens,
    chars_per_token]
  constructor
  · have h1 : totalLen [List.replicate 15799 'a', List.replicate 1000 'b'] = 16799 := by
      simp only [totalLen, List.map_cons, List.map_nil, List.sum_cons, List.sum_nil,
        List.length_replicate]
      omega
    rw [trim_context_to_token_limit, if_neg (by rw [h1, hm]; omega)]
    rw [trimAux, if_neg (by simp only [hm, List.length_replicate]; omega)]
    rw [trimAux, if_pos (by simp only [hm, List.length_replicate]; omega),
      if_pos (by simp only [hm, List.length_replicate]; omega)]
    simp only [totalLen, trimAux, List.map_cons, List.map_nil, List.sum_cons, List.sum_nil,
      List.length_append, List.length_take, List.length_replicate, hm, truncationMarker, str]
    norm_num
  · have h1 : totalLen [List.replicate 15800 'a', List.replicate 300 'b'] = 16100 := by
      simp only [totalLen, List.map_cons, List.map_nil, List.sum_cons, List.sum_nil,
        List.length_replicate]
      omega
    rw [trim_context_to_token_limit, if_neg (by rw [h1, hm]; omega)]
    rw [trimAux, if_neg (by simp only [hm, List.length_replicate]; omega)]
    rw [trimAux, if_pos (by simp only [hm, List.length_replicate]; omega),
      if_neg (by simp only [hm, List.length_replicate]; omega)]

/-- C5 (amended): `trim_context_to_token_limit` returns its input
unchanged when it fits the `max_context_tokens × 4` budget; otherwise
it keeps whole leading blocks, truncates the first overflowing block to
the remaining budget plus a 14-character truncation marker if and only
if *strictly more than* 200 characters of budget remain (dropping it
otherwise), drops all subsequent blocks, and thus its output totals at
most `max_context_tokens × 4` plus the marker length. -/
theorem c5_amended :
    (∀ parts : List Str, totalLen parts ≤ maxContextChars →
        trim_context_to_token_limit parts maxContextChars = parts) ∧
    (∀ parts : List Str,
        totalLen (trim_context_to_token_limit parts maxContextChars) ≤
          maxContextChars + truncationMarker.length) ∧
    (∀ (pre : List Str) (p : Str) (post : List Str),
        totalLen pre ≤ maxContextChars → maxContextChars < totalLen pre + p.length →
        trim_context_to_token_limit (pre ++ p :: post) maxContextChars =
          pre ++ (if 200 < maxContextChars - totalLen pre then
                    [p.take (maxContextChars - totalLen pre) ++ truncationMarker]
                  else [])) := by
  refine ⟨?_, ?_, ?_⟩
  · intro parts h
    rw [trim_context_to_token_limit, if_pos h]
  · intro parts
    by_cases h : totalLen parts ≤ maxContextChars
    · rw [trim_context_to_token_limit, if_pos h]
      exact le_trans h (Nat.le_add_right _ _)
    · rw [trim_context_to_token_limit, if_neg h]
      simpa using trimAux_totalLen_le maxContextChars parts 0 (Nat.zero_le _)
  · intro pre p post hpre hov
    have htot : ¬ totalLen (pre ++ p :: post) ≤ maxContextChars := by
      simp only [totalLen, List.map_append, List.sum_append, List.map_cons, List.sum_cons] at *
      omega
    rw [trim_context_to_token_limit, if_neg htot, trimAux_keep _ _ _ _ (by omega)]
    rw [trimAux, if_pos (by omega)]
    simp

/-- C5 amended witness: a within-budget list is returned unchanged, and
a first overflowing block with only 100 characters of budget left is
dropped. -/
theorem c5_amended_witness :
    trim_context_to_token_limit [str "ab"] maxContextChars = [str "ab"] ∧
    trim_context_to_token_limit
        [List.replicate 15900 'a', List.replicate 500 'b'] maxContextChars =
      [List.replicate 15900 'a'] ∧
    trim_context_to_token_limit
        [List.replicate 15000 'a', List.replicate 2000 'b'] maxContextChars =
      [List.replicate 15000 'a',
        (List.replicate 2000 'b').take 1000 ++ truncationMarker] := by
  have hm : maxContextChars = 16000 := by norm_num [maxContextChars, max_context_tokens,
    chars_per_token]
  have ht1 : totalLen [List.replicate 15900 'a'] = 15900 := by
    simp only [totalLen, List.map_cons, List.map_nil, List.sum_cons, List.sum_nil,
      List.length_replicate]
    omega
  have ht2 : totalLen [List.replicate 15000 'a'] = 15000 := by
    simp only [totalLen, List.map_cons, List.map_nil, List.sum_cons, List.sum_nil,
      List.length_replicate]
    omega
  refine ⟨c5_amended.1 [str "ab"] (by rw [hm]; decide), ?_, ?_⟩
  · have h := c5_amended.2.2 [List.replicate 15900 'a'] (List.replicate 500 'b') []
      (by rw [ht1, hm]; omega)
      (by rw [ht1, hm, List.length_replicate]; omega)
    rw [if_neg (by rw [ht1, hm]; omega), List.append_nil, List.singleton_append] at h
    exact h
  · have h := c5_amended.2.2 [List.replicate 15000 'a'] (List.replicate 2000 'b') []
      (by rw [ht2, hm]; omega)
      (by rw [ht2, hm, List.length_replicate]; omega)
    rw [if_pos (by rw [ht2, hm]; omega),
      show maxContextChars - totalLen [List.replicate 15000 'a'] = 1000 by rw [ht2, hm],
      List.singleton_append, List.singleton_append] at h
    exact h

-- ---------------------------------------------------------------------------
-- Hybrid scoring and source records (rag_service.py lines 588-617, 910-926)
-- ---------------------------------------------------------------------------

/-- One retrieval result record of `hybrid_search`
(`{"text", "metadata", "hybrid_score", "timestamp"}`, with the metadata
fields of interest flattened in; the `'True'/'False'` string flags of
the stored metadata are embedded as booleans). -/
structure RagResult where
  text : Str
  email_id : Str
  sender : Str
  subject : Str
  date : Str
  is_urgent : Bool
  has_deadline : Bool
  deadline_date : Str
  hybrid_score : ℚ
  timestamp : ℚ

/-- Per-chunk score combination in `hybrid_search` (lines 588-610):
`semantic = max(0, 1 − distance)`,
`keyword = min(1, matches / max(len(query_keywords), 1))`, flag boosts
of 0.10 each, and filter-dependent weights. -/
def hybridScore (sender_filtered : Bool) (distance : ℚ) (keyword_matches n_keywords : ℕ)
    (is_urgent has_deadline : Bool) : ℚ :=
  let semantic_score := max 0 (1 - distance)
  let keyword_score := min 1 ((keyword_matches : ℚ) / ((max n_keywords 1 : ℕ) : ℚ))
  let urgency_boost : ℚ := if is_urgent then 0.10 else 0
  let deadline_boost : ℚ := if has_deadline then 0.10 else 0
  if sender_filtered then
    0.40 * semantic_score + 0.40 * keyword_score + urgency_boost + deadline_boost
  else
    0.35 * semantic_score + 0.45 * keyword_score + urgency_boost + deadline_boost

/-- Python 3 `round` to an integer: banker's rounding (round half to
even); the source computes on exact values here. -/
def pyRoundHalfEven (q : ℚ) : ℤ :=
  if q - ⌊q⌋ = 1/2 then (if 2 ∣ ⌊q⌋ then ⌊q⌋ else ⌊q⌋ + 1) else round q

/-- Python `round(q, 1)`. -/
def pyRound1 (q : ℚ) : ℚ := ((pyRoundHalfEven (10 * q) : ℤ) : ℚ) / 10

/-- One entry of the `sources` array (`_build_sources`). -/
structure SourceRecord where
  email_id : Str
  sender : Str
  subject : Str
  date : Str
  relevance : ℚ
  is_urgent : Bool
  has_deadline : Bool
  deadline : Str
  text : Str
  timestamp : ℚ

/-- `InboxOnlyRAG._build_sources`: one source per retrieval record, with
`relevance = round(hybrid_score * 100, 1)`. -/
def _build_sources (email_list : List RagResult) : List SourceRecord :=
  email_list.map (fun item =>
    { email_id := item.email_id
      sender := item.sender
      subject := item.subject
      date := item.date
      relevance := pyRound1 (item.hybrid_score * 100)
      is_urgent := item.is_urgent
      has_deadline := item.has_deadline
      deadline := item.deadline_date
      text := item.text
      timestamp := item.timestamp })

theorem pyRoundHalfEven_nonneg (q : ℚ) (h : 0 ≤ q) : 0 ≤ pyRoundHalfEven q := by
  unfold pyRoundHalfEven
  have hf : (0 : ℤ) ≤ ⌊q⌋ := Int.floor_nonneg.2 h
  split_ifs with h1 h2
  · exact hf
  · omega
  · rw [round_eq]
    exact Int.floor_nonneg.2 (by linarith)

theorem pyRoundHalfEven_le (q : ℚ) (n : ℤ) (h : q ≤ (n : ℚ)) : pyRoundHalfEven q ≤ n := by
  unfold pyRoundHalfEven
  split_ifs with h1 h2
  all_goals try {
    have hlt : (⌊q⌋ : ℚ) < (n : ℚ) := by linarith
    have hlt2 : ⌊q⌋ < n := by exact_mod_cast hlt
    omega }
  rw [round_eq]
  have hq : q + 1/2 < ((n + 1 : ℤ) : ℚ) := by push_cast; linarith
  have := Int.floor_lt.2 hq
  omega

theorem pyRound1_bounds (q : ℚ) (h0 : 0 ≤ q) (h1 : q ≤ 100) :
    0 ≤ pyRound1 q ∧ pyRound1 q ≤ 100 := by
  unfold pyRound1
  have hn := pyRoundHalfEven_nonneg (10 * q) (by linarith)
  have hle := pyRoundHalfEven_le (10 * q) 1000 (by push_cast; linarith)
  constructor
  · positivity
  · rw [div_le_iff₀ (by norm_num)]
    calc ((pyRoundHalfEven (10 * q) : ℤ) : ℚ) ≤ (1000 : ℤ) := by exact_mod_cast hle
      _ = 100 * 10 := by norm_num

/-- C6: with a sender filter the hybrid score is
`0.40·max(0, 1 − distance) + 0.40·min(1, matches/|keywords|) + 0.10·[urgent] + 0.10·[deadline]`,
and without it `0.35·semantic + 0.45·keyword` plus the same boosts; for
nonnegative distances the score lies in [0, 1]; every `relevance` in
the sources array equals `round(100 × hybrid_score, 1)`; and that
rounded value lies in [0, 100]. -/
theorem c6_hybrid_score_and_relevance (sf u dl : Bool) (d : ℚ) (km nk : ℕ)
    (hd : 0 ≤ d) (hn : 1 ≤ nk) :
    (hybridScore true d km nk u dl =
        0.40 * max 0 (1 - d) + 0.40 * min 1 ((km : ℚ) / (nk : ℚ)) +
          (if u then 0.10 else 0) + (if dl then 0.10 else 0)) ∧
    (hybridScore false d km nk u dl =
        0.35 * max 0 (1 - d) + 0.45 * min 1 ((km : ℚ) / (nk : ℚ)) +
          (if u then 0.10 else 0) + (if dl then 0.10 else 0)) ∧
    (0 ≤ hybridScore sf d km nk u dl ∧ hybridScore sf d km nk u dl ≤ 1) ∧
    (∀ rs : List RagResult, ∀ s ∈ _build_sources rs,
        ∃ r ∈ rs, s.relevance = pyRound1 (r.hybrid_score * 100)) ∧
    (0 ≤ pyRound1 (hybridScore sf d km nk u dl * 100) ∧
        pyRound1 (hybridScore sf d km nk u dl * 100) ≤ 100) := by
  have hmax : max nk 1 = nk := Nat.max_eq_left hn
  have hs0 : (0 : ℚ) ≤ max 0 (1 - d) := le_max_left _ _
  have hs1 : max 0 (1 - d) ≤ 1 := max_le (by norm_num) (by linarith)
  have hk0 : (0 : ℚ) ≤ min 1 ((km : ℚ) / ((max nk 1 : ℕ) : ℚ)) :=
    le_min zero_le_one (div_nonneg (Nat.cast_nonneg _) (Nat.cast_nonneg _))
  have hk1 : min 1 ((km : ℚ) / ((max nk 1 : ℕ) : ℚ)) ≤ 1 := min_le_left _ _
  have hbounds : 0 ≤ hybridScore sf d km nk u dl ∧ hybridScore sf d km nk u dl ≤ 1 := by
    unfold hybridScore
    rcases sf <;> rcases u <;> rcases dl <;>
      simp only [if_true, if_false, Bool.false_eq_true, ite_true, ite_false] <;>
      constructor <;> linarith
  refine ⟨by unfold hybridScore; rw [hmax]; rcases u <;> rcases dl <;> simp,
          by unfold hybridScore; rw [hmax]; rcases u <;> rcases dl <;> simp,
          hbounds, ?_, ?_⟩
  · intro rs s hs
    obtain ⟨r, hr, rfl⟩ := List.mem_map.1 hs
    exact ⟨r, hr, rfl⟩
  · exact pyRound1_bounds _ (by nlinarith [hbounds.1]) (by nlinarith [hbounds.2])

/-- C6 witness: concrete scores at distance 1/2, 1 keyword match of 2. -/
theorem c6_witness :
    hybridScore true (1/2) 1 2 false false =
      0.40 * max 0 (1 - (1/2 : ℚ)) + 0.40 * min 1 ((1 : ℚ) / (2 : ℚ)) +
        (if false then (0.10 : ℚ) else 0) + (if false then (0.10 : ℚ) else 0) ∧
    0 ≤ hybridScore true (1/2) 1 2 false false ∧
    hybridScore true (1/2) 1 2 false false ≤ 1 :=
  ⟨(c6_hybrid_score_and_relevance true false false (1/2) 1 2 (by norm_num) (by norm_num)).1,
   (c6_hybrid_score_and_relevance true false false (1/2) 1 2 (by norm_num)
      (by norm_num)).2.2.1⟩

-- ---------------------------------------------------------------------------
-- hybrid_search dedup / ordering / truncation (rag_service.py lines 627-643)
-- ---------------------------------------------------------------------------

/-- One iteration of the `for result in scored_results` dedup loop:
`seen_emails[email_id] = result` when the id is new or the score is
strictly higher (Python dict update keeps the original key position). -/
def dedupStep (seen : List (Str × RagResult)) (r : RagResult) : List (Str × RagResult) :=
  match alistLookup seen r.email_id with
  | none => alistSet seen r.email_id r
  | some cur =>
      if cur.hybrid_score < r.hybrid_score then alistSet seen r.email_id r else seen

/-- The sort key relation of
`unique_results.sort(key=lambda x: (x.timestamp, x.hybrid_score), reverse=True)`:
`a` may precede `b` iff `a`'s key is lexicographically ≥ `b`'s. -/
def keyGE (a b : RagResult) : Prop :=
  b.timestamp < a.timestamp ∨
    (a.timestamp = b.timestamp ∧ b.hybrid_score ≤ a.hybrid_score)

instance : DecidableRel keyGE := fun a b => by unfold keyGE; infer_instance

instance : IsTotal RagResult keyGE where
  total a b := by
    rcases lt_trichotomy a.timestamp b.timestamp with h | h | h
    · exact Or.inr (Or.inl h)
    · rcases le_total a.hybrid_score b.hybrid_score with hs | hs
      · exact Or.inr (Or.inr ⟨h.symm, hs⟩)
      · exact Or.inl (Or.inr ⟨h, hs⟩)
    · exact Or.inl (Or.inl h)

instance : IsTrans RagResult keyGE where
  trans a b c hab hbc := by
    rcases hab with h1 | ⟨h1, h1s⟩ <;> rcases hbc with h2 | ⟨h2, h2s⟩
    · exact Or.inl (lt_trans h2 h1)
    · exact Or.inl (h2 ▸ h1)
    · exact Or.inl (h1 ▸ h2)
    · exact Or.inr ⟨h2 ▸ h1, le_trans h2s h1s⟩

/-- The deduplicated, sorted (not yet truncated) result list: values of
the `seen_emails` dict in insertion order, stably sorted newest-first
with score as tiebreaker.  Python's `list.sort` is a stable sort; a
stable sort's output is unique, so it is embedded by insertion sort
with the ≥-by-key relation. -/
def hybrid_search_unique (scored : List RagResult) : List RagResult :=
  List.insertionSort keyGE ((scored.foldl dedupStep []).map Prod.snd)

/-- The final truncation `unique_results[:50] if sender_filter else
unique_results[:top_k]`. -/
def hybrid_search_final (scored : List RagResult) (sender_filtered : Bool)
    (top_k : ℕ) : List RagResult :=
  if sender_filtered then (hybrid_search_unique scored).take 50
  else (hybrid_search_unique scored).take top_k

theorem alistSet_keys_of_mem {α : Type} (s : List (Str × α)) (k : Str) (v : α)
    (h : k ∈ s.map Prod.fst) : (alistSet s k v).map Prod.fst = s.map Prod.fst := by
  induction s with
  | nil => simp at h
  | cons p rest ih =>
      obtain ⟨k', v'⟩ := p
      by_cases hk : k' = k
      · simp [alistSet, hk]
      · have hmem : k ∈ rest.map Prod.fst := by
          simp only [List.map_cons, List.mem_cons] at h
          rcases h with h | h
          · exact absurd h.symm hk
          · exact h
        simp [alistSet, hk, ih hmem]

theorem alistSet_of_not_mem {α : Type} (s : List (Str × α)) (k : Str) (v : α)
    (h : k ∉ s.map Prod.fst) : alistSet s k v = s ++ [(k, v)] := by
  induction s with
  | nil => rfl
  | cons p rest ih =>
      obtain ⟨k', v'⟩ := p
      simp only [List.map_cons, List.mem_cons, not_or] at h
      have hk : ¬ k' = k := fun hkk => h.1 hkk.symm
      simp [alistSet, hk, ih h.2]

theorem alistSet_keys_nodup {α : Type} (s : List (Str × α)) (k : Str) (v : α)
    (h : (s.map Prod.fst).Nodup) : ((alistSet s k v).map Prod.fst).Nodup := by
  by_cases hk : k ∈ s.map Prod.fst
  · rw [alistSet_keys_of_mem s k v hk]; exact h
  · rw [alistSet_of_not_mem s k v hk]
    simp only [List.map_append, List.map_cons, List.map_nil]
    refine List.Nodup.append h (List.nodup_singleton _) ?_
    intro a ha hmem
    rw [List.mem_singleton] at hmem
    subst hmem
    exact hk ha

theorem alistSet_mem {α : Type} (s : List (Str × α)) (k : Str) (v : α)
    (hnd : (s.map Prod.fst).Nodup) :
    ∀ p ∈ alistSet s k v, p = (k, v) ∨ (p ∈ s ∧ p.1 ≠ k) := by
  induction s with
  | nil =>
      intro p hp
      simp only [alistSet, List.mem_singleton] at hp
      exact Or.inl hp
  | cons q rest ih =>
      obtain ⟨k', v'⟩ := q
      have hnd2 : ((rest.map Prod.fst).Nodup) := by
        simp only [List.map_cons, List.nodup_cons] at hnd
        exact hnd.2
      have hk'nd : k' ∉ rest.map Prod.fst := by
        simp only [List.map_cons, List.nodup_cons] at hnd
        exact hnd.1
      intro p hp
      by_cases hk : k' = k
      · subst hk
        rw [show alistSet ((k', v') :: rest) k' v = (k', v) :: rest by
          simp [alistSet]] at hp
        rcases List.mem_cons.1 hp with hp1 | hp1
        · exact Or.inl hp1
        · right
          refine ⟨List.mem_cons_of_mem _ hp1, fun hpk => ?_⟩
          exact hk'nd (List.mem_map.2 ⟨p, hp1, hpk⟩)
      · rw [show alistSet ((k', v') :: rest) k v = (k', v') :: alistSet rest k v by
          simp [alistSet, hk]] at hp
        rcases List.mem_cons.1 hp with hp1 | hp1
        · exact Or.inr ⟨by simp [hp1], by simp [hp1, hk]⟩
        · rcases ih hnd2 p hp1 with h | ⟨h1, h2⟩
          · exact Or.inl h
          · exact Or.inr ⟨List.mem_cons_of_mem _ h1, h2⟩

theorem alistLookup_eq_none_iff {α : Type} (s : List (Str × α)) (k : Str) :
    alistLookup s k = none ↔ k ∉ s.map Prod.fst := by
  induction s with
  | nil => simp [alistLookup]
  | cons p rest ih =>
      obtain ⟨k', v'⟩ := p
      by_cases hk : k' = k
      · rw [alistLookup, if_pos hk]
        simp only [List.map_cons, List.mem_cons, not_or]
        exact ⟨fun h => Option.noConfusion h, fun h => absurd hk.symm h.1⟩
      · simp only [alistLookup, if_neg hk, List.map_cons, List.mem_cons, not_or, ih]
        exact ⟨fun h => ⟨fun hkk => hk hkk.symm, h⟩, fun h => h.2⟩

theorem alistLookup_mem {α : Type} (s : List (Str × α)) (k : Str) (v : α)
    (h : alistLookup s k = some v) : (k, v) ∈ s := by
  induction s with
  | nil => simp [alistLookup] at h
  | cons p rest ih =>
      obtain ⟨k', v'⟩ := p
      by_cases hk : k' = k
      · rw [alistLookup, if_pos hk] at h
        exact List.mem_cons.2 (Or.inl (by cases h; rw [hk]))
      · rw [alistLookup, if_neg hk] at h
        exact List.mem_cons_of_mem _ (ih h)

theorem alistLookup_of_mem {α : Type} (s : List (Str × α))
    (hnd : (s.map Prod.fst).Nodup) (p : Str × α) (hp : p ∈ s) :
    alistLookup s p.1 = some p.2 := by
  induction s with
  | nil => simp at hp
  | cons q rest ih =>
      obtain ⟨k', v'⟩ := q
      simp only [List.map_cons, List.nodup_cons] at hnd
      rcases List.mem_cons.1 hp with hp1 | hp1
      · rw [hp1, alistLookup, if_pos rfl]
      · have hk : k' ≠ p.1 := by
          intro hkk
          exact hnd.1 (List.mem_map.2 ⟨p, hp1, hkk.symm⟩)
        rw [alistLookup, if_neg hk]
        exact ih hnd.2 hp1

/-- Invariant of the dedup loop: `S` is the `seen_emails` dict after
processing the records of `P` — keys are distinct, each stored record
carries its own key, comes from `P`, has a maximal score among the
`P`-records with that email id, and every id of `P` has an entry. -/
def DedupInv (P : List RagResult) (S : List (Str × RagResult)) : Prop :=
  (S.map Prod.fst).Nodup ∧
  (∀ p ∈ S, p.2.email_id = p.1 ∧ p.2 ∈ P ∧
      ∀ r' ∈ P, r'.email_id = p.1 → r'.hybrid_score ≤ p.2.hybrid_score) ∧
  (∀ r' ∈ P, r'.email_id ∈ S.map Prod.fst)

theorem dedupStep_inv (P : List RagResult) (S : List (Str × RagResult)) (r : RagResult)
    (h : DedupInv P S) : DedupInv (P ++ [r]) (dedupStep S r) := by
  obtain ⟨hnd, hvals, hcompl⟩ := h
  unfold dedupStep
  rcases hl : alistLookup S r.email_id with _ | cur
  · -- fresh email id: append `(id, r)` at the end
    have hfresh : r.email_id ∉ S.map Prod.fst := (alistLookup_eq_none_iff S _).1 hl
    rw [alistSet_of_not_mem S _ r hfresh]
    refine ⟨?_, ?_, ?_⟩
    · simp only [List.map_append, List.map_cons, List.map_nil]
      refine List.Nodup.append hnd (List.nodup_singleton _) ?_
      intro a ha hmem
      rw [List.mem_singleton] at hmem
      subst hmem
      exact hfresh ha
    · intro p hp
      rcases List.mem_append.1 hp with hp1 | hp1
      · obtain ⟨h1, h2, h3⟩ := hvals p hp1
        refine ⟨h1, List.mem_append_left _ h2, ?_⟩
        intro r' hr' hid
        rcases List.mem_append.1 hr' with hr1 | hr1
        · exact h3 r' hr1 hid
        · rw [List.mem_singleton] at hr1
          subst hr1
          exact absurd (hid ▸ List.mem_map.2 ⟨p, hp1, rfl⟩ : r'.email_id ∈ S.map Prod.fst)
            (hid ▸ hfresh)
      · rw [List.mem_singleton] at hp1
        subst hp1
        refine ⟨rfl, List.mem_append_right _ (List.mem_singleton_self _), ?_⟩
        intro r' hr' hid
        rcases List.mem_append.1 hr' with hr1 | hr1
        · have hid2 : r'.email_id = r.email_id := hid
          exact absurd (hid2 ▸ hcompl r' hr1) hfresh
        · rw [List.mem_singleton] at hr1
          subst hr1
          exact le_rfl
    · intro r' hr'
      rcases List.mem_append.1 hr' with hr1 | hr1
      · simp only [List.map_append, List.map_cons, List.map_nil, List.mem_append]
        exact Or.inl (hcompl r' hr1)
      · rw [List.mem_singleton] at hr1
        subst hr1
        simp only [List.map_append, List.map_cons, List.map_nil, List.mem_append,
          List.mem_singleton]
        exact Or.inr trivial
  · -- id already present with stored record `cur`
    have hcur : (r.email_id, cur) ∈ S := alistLookup_mem S _ cur hl
    have hkey : r.email_id ∈ S.map Prod.fst := List.mem_map.2 ⟨_, hcur, rfl⟩
    obtain ⟨_, hcmem, hcmax⟩ := hvals _ hcur
    show DedupInv (P ++ [r])
      (if cur.hybrid_score < r.hybrid_score then alistSet S r.email_id r else S)
    by_cases hscore : cur.hybrid_score < r.hybrid_score
    · rw [if_pos hscore]
      refine ⟨alistSet_keys_nodup S _ r hnd, ?_, ?_⟩
      · intro p hp
        rcases alistSet_mem S _ r hnd p hp with hp1 | ⟨hp1, hp2⟩
        · subst hp1
          refine ⟨rfl, List.mem_append_right _ (List.mem_singleton_self _), ?_⟩
          intro r' hr' hid
          rcases List.mem_append.1 hr' with hr1 | hr1
          · exact le_of_lt (lt_of_le_of_lt (hcmax r' hr1 hid) hscore)
          · rw [List.mem_singleton] at hr1
            subst hr1
            exact le_rfl
        · obtain ⟨h1, h2, h3⟩ := hvals p hp1
          refine ⟨h1, List.mem_append_left _ h2, ?_⟩
          intro r' hr' hid
          rcases List.mem_append.1 hr' with hr1 | hr1
          · exact h3 r' hr1 hid
          · rw [List.mem_singleton] at hr1
            rw [hr1] at hid
            exact absurd hid.symm hp2
      · intro r' hr'
        have hkeys : (alistSet S r.email_id r).map Prod.fst = S.map Prod.fst :=
          alistSet_keys_of_mem S _ r hkey
        rw [hkeys]
        rcases List.mem_append.1 hr' with hr1 | hr1
        · exact hcompl r' hr1
        · rw [List.mem_singleton] at hr1
          subst hr1
          exact hkey
    · rw [if_neg hscore]
      refine ⟨hnd, ?_, ?_⟩
      · intro p hp
        obtain ⟨h1, h2, h3⟩ := hvals p hp
        refine ⟨h1, List.mem_append_left _ h2, ?_⟩
        intro r' hr' hid
        rcases List.mem_append.1 hr' with hr1 | hr1
        · exact h3 r' hr1 hid
        · rw [List.mem_singleton] at hr1
          subst hr1
          -- the entry with this key is exactly `cur`
          have h4 := alistLookup_of_mem S hnd p hp
          rw [← hid] at h4
          rw [hl] at h4
          have hpc : p.2 = cur := (Option.some_inj.1 h4).symm
          rw [hpc]
          exact le_of_not_lt hscore
      · intro r' hr'
        rcases List.mem_append.1 hr' with hr1 | hr1
        · exact hcompl r' hr1
        · rw [List.mem_singleton] at hr1
          subst hr1
          exact hkey

theorem foldl_dedup_inv (scored : List RagResult) :
    ∀ (P : List RagResult) (S : List (Str × RagResult)), DedupInv P S →
      DedupInv (P ++ scored) (scored.foldl dedupStep S) := by
  induction scored with
  | nil =>
      intro P S h
      simpa using h
  | cons r rest ih =>
      intro P S h
      have h2 := ih (P ++ [r]) (dedupStep S r) (dedupStep_inv P S r h)
      rw [List.append_assoc] at h2
      simpa using h2

theorem dedup_inv_total (scored : List RagResult) :
    DedupInv scored (scored.foldl dedupStep []) := by
  have h := foldl_dedup_inv scored [] [] ⟨by simp, by simp, by simp⟩
  simpa using h

theorem map_snd_email_id_eq_keys (S : List (Str × RagResult))
    (h : ∀ p ∈ S, p.2.email_id = p.1) :
    (S.map Prod.snd).map RagResult.email_id = S.map Prod.fst := by
  induction S with
  | nil => rfl
  | cons p rest ih =>
      simp only [List.map_cons]
      rw [h p (List.mem_cons_self _ _), ih (fun q hq => h q (List.mem_cons_of_mem _ hq))]

theorem hybrid_search_final_eq_take (scored : List RagResult) (sf : Bool) (top_k : ℕ) :
    hybrid_search_final scored sf top_k =
      (hybrid_search_unique scored).take (if sf then 50 else top_k) := by
  rcases sf <;> simp [hybrid_search_final]

/-- C7: the final result list of `hybrid_search` has pairwise-distinct
email ids; each of its records comes from the scored input and carries
the maximal hybrid score among the input chunks with its email id; it
is sorted by timestamp descending with hybrid score descending as
tiebreaker; it is truncated to 50 entries under a sender filter and to
`top_k` otherwise; before truncation every input email id is
represented; and the sources array built from it has exactly one entry
per distinct email id. -/
theorem c7_dedup_sort_truncate (scored : List RagResult) (sf : Bool) (top_k : ℕ) :
    ((hybrid_search_final scored sf top_k).map RagResult.email_id).Nodup ∧
    List.Sorted keyGE (hybrid_search_final scored sf top_k) ∧
    (hybrid_search_final scored sf top_k).length ≤ (if sf then 50 else top_k) ∧
    (∀ r ∈ hybrid_search_final scored sf top_k,
        r ∈ scored ∧ ∀ r' ∈ scored, r'.email_id = r.email_id →
          r'.hybrid_score ≤ r.hybrid_score) ∧
    (∀ r ∈ scored, ∃ p ∈ hybrid_search_unique scored, p.email_id = r.email_id) ∧
    ((_build_sources (hybrid_search_final scored sf top_k)).map
        SourceRecord.email_id).Nodup := by
  obtain ⟨hnd, hvals, hcompl⟩ := dedup_inv_total scored
  have hperm : (hybrid_search_unique scored).Perm
      ((scored.foldl dedupStep []).map Prod.snd) :=
    List.perm_insertionSort keyGE _
  have hids : ((scored.foldl dedupStep []).map Prod.snd).map RagResult.email_id =
      (scored.foldl dedupStep []).map Prod.fst :=
    map_snd_email_id_eq_keys _ (fun p hp => (hvals p hp).1)
  have huniq_ids : ((hybrid_search_unique scored).map RagResult.email_id).Nodup := by
    rw [(hperm.map RagResult.email_id).nodup_iff, hids]
    exact hnd
  have huniq_sorted : List.Sorted keyGE (hybrid_search_unique scored) :=
    List.sorted_insertionSort keyGE _
  have huniq_max : ∀ r ∈ hybrid_search_unique scored,
      r ∈ scored ∧ ∀ r' ∈ scored, r'.email_id = r.email_id →
        r'.hybrid_score ≤ r.hybrid_score := by
    intro r hr
    have hr2 : r ∈ (scored.foldl dedupStep []).map Prod.snd := hperm.mem_iff.1 hr
    obtain ⟨p, hp, hp2⟩ := List.mem_map.1 hr2
    obtain ⟨h1, h2, h3⟩ := hvals p hp
    subst hp2
    exact ⟨h2, fun r' hr' hid => h3 r' hr' (h1 ▸ hid)⟩
  have hsub : List.Sublist (hybrid_search_final scored sf top_k)
      (hybrid_search_unique scored) := by
    rw [hybrid_search_final_eq_take]
    exact List.take_sublist _ _
  refine ⟨?_, ?_, ?_, ?_, ?_, ?_⟩
  · exact ((hsub.map RagResult.email_id).nodup huniq_ids)
  · exact huniq_sorted.sublist hsub
  · rw [hybrid_search_final_eq_take]
    exact List.length_take_le _ _
  · exact fun r hr => huniq_max r (hsub.subset hr)
  · intro r hr
    have hk : r.email_id ∈ (scored.foldl dedupStep []).map Prod.fst := hcompl r hr
    rw [← hids] at hk
    obtain ⟨p, hp, hp2⟩ := List.mem_map.1 hk
    exact ⟨p, hperm.mem_iff.2 hp, hp2⟩
  · have : (_build_sources (hybrid_search_final scored sf top_k)).map
        SourceRecord.email_id =
        (hybrid_search_final scored sf top_k).map RagResult.email_id := by
      simp [_build_sources, List.map_map]
    rw [this]
    exact (hsub.map RagResult.email_id).nodup huniq_ids

-- ---------------------------------------------------------------------------
-- Background service state (rag_backgroundservice.py) and /ask gating
-- (rag_router.py lines 113-180)
-- ---------------------------------------------------------------------------

/-- `RAGStatus` enum of `rag_backgroundservice.py` lines 17-22. -/
inductive RAGStatus where
  | idle
  | indexing
  | ready
  | error
  | rate_limited
deriving DecidableEq, Repr

/-- Union of the progress dicts passed to `_set_status` (lines 171-174,
182-188, 201-204); absent keys are `none`. -/
structure ProgressInfo where
  attempt : Option ℕ := none
  started_at : Option ℚ := none
  last_indexed_at : Option ℚ := none
  emails_indexed : Option ℕ := none
  new_emails : Option ℕ := none
  index_time_seconds : Option ℚ := none
  message : Option Str := none
  error : Option Str := none
  failed_at : Option ℚ := none
deriving DecidableEq, Repr

/-- Mutable state of `RAGBackgroundService`: the per-user `_status` and
`_progress` maps and the `_pending_users` set (kept as an ordered list
without duplicates). -/
structure ServiceState where
  status : List (Str × RAGStatus)
  progress : List (Str × ProgressInfo)
  pending : List Str
deriving DecidableEq, Repr

def initServiceState : ServiceState := ⟨[], [], []⟩

/-- `RAGBackgroundService.request_index`: adds the user to the pending
set and touches nothing else. -/
def request_index (s : ServiceState) (user_email : Str) : ServiceState :=
  { s with pending :=
      if user_email ∈ s.pending then s.pending else s.pending ++ [user_email] }

/-- `RAGBackgroundService._set_status`. -/
def _set_status (s : ServiceState) (user_email : Str) (st : RAGStatus)
    (extra : ProgressInfo) : ServiceState :=
  { s with status := alistSet s.status user_email st,
           progress := alistSet s.progress user_email extra }

/-- The dict returned by `InboxOnlyRAG.get_stats` (union of the
success-branch and exception-branch keys; keys absent from a branch
are `none`). -/
structure RagStats where
  indexed_emails : ℕ
  total_chunks : Option ℕ := none
  cache_size : Option ℕ := none
  cache_ttl_seconds : Option ℚ := none
  is_ready : Bool
  rate_limited : Bool
  label_filter : Option Str := none
deriving DecidableEq, Repr

/-- `InboxOnlyRAG.get_stats`: the vector-store collection count is
external input (`chunks = none` embeds the exception branch, which
returns the fixed fallback dict).  In the success branch
`is_ready = total_chunks > 0`. -/
def get_stats (chunks : Option ℕ) (cache_size : ℕ) (cache_ttl : ℚ)
    (indexed_emails : ℕ) (rate_limited : Bool) : RagStats :=
  match chunks with
  | some total_chunks =>
      { indexed_emails := indexed_emails
        total_chunks := some total_chunks
        cache_size := some cache_size
        cache_ttl_seconds := some cache_ttl
        is_ready := decide (0 < total_chunks)
        rate_limited := rate_limited
        label_filter := some (str "INBOX") }
  | none => { indexed_emails := 0, is_ready := false, rate_limited := false }

/-- The fields of the `RAGBackgroundService.get_status` dict consulted
by the claims: `status` and `is_indexing` (written only by the dict
literal), `is_ready` *after* the `**rag_stats` merge (a later duplicate
key wins in a Python dict literal, so `rag_stats`' own `is_ready` —
the vector-store `total_chunks > 0` flag — overrides
`status == READY` whenever the stats call succeeded), the merged
progress entry, and the merged stats themselves. -/
structure StatusReport where
  status : RAGStatus
  is_ready : Bool
  is_indexing : Bool
  progress : ProgressInfo
  stats : Option RagStats
deriving DecidableEq, Repr

/-- `RAGBackgroundService.get_status`: missing users default to
`IDLE` / empty progress.  `rag_stats` is the outcome of the
`rag_system.get_stats(user_email)` call (`none` embeds the swallowed
exception, which leaves `rag_stats = {}` and hence no override). -/
def get_status (s : ServiceState) (user_email : Str)
    (rag_stats : Option RagStats) : StatusReport :=
  let st := (alistLookup s.status user_email).getD RAGStatus.idle
  { status := st
    is_ready := match rag_stats with
                | some stats => stats.is_ready
                | none => decide (st = RAGStatus.ready)
    is_indexing := st = RAGStatus.indexing
    progress := (alistLookup s.progress user_email).getD {}
    stats := rag_stats }

/-- Whole-system state for the status-map transition system: the
background service state plus `rag_system.last_rate_limit`. -/
structure SystemState where
  service : ServiceState
  last_rate_limit : Option ℚ
deriving DecidableEq, Repr

def initSystemState : SystemState := ⟨initServiceState, none⟩

/-- The events that mutate this state in the source:
`request_index`, the three `_set_status` call sites of
`_index_user_with_retry` (attempt start, success, permanent failure),
and the rate-limit detection of `answer_question` (lines 884-886),
which writes only `rag_system.last_rate_limit`. -/
inductive Event where
  | requestIndex (u : Str)
  | startAttempt (u : Str) (attempt : ℕ) (t : ℚ)
  | indexSuccess (u : Str) (t : ℚ) (emails new_emails : ℕ) (dur : ℚ) (msg : Str)
  | indexFailure (u : Str) (err : Str) (t : ℚ)
  | rateLimitDetected (t : ℚ)
deriving DecidableEq

def stepEvent (s : SystemState) : Event → SystemState
  | Event.requestIndex u => { s with service := request_index s.service u }
  | Event.startAttempt u attempt t =>
      let extra : ProgressInfo := { attempt := some attempt, started_at := some t }
      { s with service := _set_status s.service u RAGStatus.indexing extra }
  | Event.indexSuccess u t emails new_emails dur msg =>
      let extra : ProgressInfo :=
        { last_indexed_at := some t, emails_indexed := some emails,
          new_emails := some new_emails, index_time_seconds := some dur,
          message := some msg }
      { s with service := _set_status s.service u RAGStatus.ready extra }
  | Event.indexFailure u err t =>
      let extra : ProgressInfo := { error := some err, failed_at := some t }
      { s with service := _set_status s.service u RAGStatus.error extra }
  | Event.rateLimitDetected t => { s with last_rate_limit := some t }

/-- `self.rate_limit_cooldown` (7200 s). -/
def rate_limit_cooldown : ℚ := 7200

/-- `InboxOnlyRAG.is_rate_limited`. -/
def is_rate_limited (last_rate_limit : Option ℚ) (now : ℚ) : Bool :=
  match last_rate_limit with
  | none => false
  | some t => decide (now - t < rate_limit_cooldown)

theorem alistLookup_alistSet_eq {α : Type} (m : List (Str × α)) (k : Str) (v : α)
    (u : Str) :
    alistLookup (alistSet m k v) u = if k = u then some v else alistLookup m u := by
  induction m with
  | nil =>
      by_cases h : k = u <;> simp [alistSet, alistLookup, h]
  | cons p rest ih =>
      obtain ⟨k', v'⟩ := p
      by_cases h1 : k' = k
      · subst h1
        by_cases h2 : k' = u <;> simp [alistSet, alistLookup, h2, ih]
      · by_cases h2 : k' = u
        · subst h2
          have : ¬ k = k' := fun h => h1 h.symm
          simp [alistSet, alistLookup, h1, this]
        · simp [alistSet, alistLookup, h1, h2, ih]

/-- Shape of a `/ask` response body (normal results and gating
envelopes; keys absent from a payload are `none`/empty). -/
structure AskResponse where
  answer : Str
  status : Str
  is_ready : Option Bool := none
  sources : List SourceRecord := []
  emails_found : Option ℕ := none

deriving instance DecidableEq for RagResult
deriving instance DecidableEq for SourceRecord
deriving instance DecidableEq for AskResponse

/-- Envelope returned by `rag_ask` when `status == "idle"`. -/
def idleEnvelope : AskResponse :=
  { answer := str "Your emails are being indexed for the first time. Please try again in a moment."
    status := str "indexing"
    is_ready := some false
    sources := [] }

/-- Envelope returned by `rag_ask` when `status == "indexing"`. -/
def indexingEnvelope : AskResponse :=
  { answer := str "Still indexing your emails, please try again in a few seconds."
    status := str "indexing"
    is_ready := some false
    sources := [] }

/-- Envelope returned by `rag_ask` when `status == "error"`. -/
def errorEnvelope : AskResponse :=
  { answer := str "Email indexing encountered an error. RAG search may be incomplete."
    status := str "error"
    is_ready := some false
    sources := [] }

/-- `rag_ask` (router lines 113-180): empty-question check, then the
lifecycle gate.  The gate reads the `status` key of `get_status`, which
the `**rag_stats` merge never overrides (`get_stats` returns no
`status` key), so the gating is independent of `rag_stats`.
`answer_result` abstracts what `rag_system.answer_question` would
return (it performs LLM and vector-store I/O); the boolean of the
result records whether that call was reached, and the returned
`ServiceState` reflects the re-enqueue done on the idle branch. -/
def rag_ask (svc : ServiceState) (current_user_email : Str) (question : Str)
    (rag_stats : Option RagStats) (answer_result : AskResponse) :
    Except Str (AskResponse × Bool × ServiceState) :=
  if question = [] || pyStrip question = [] then
    Except.error (str "Question cannot be empty")
  else
    let st := (get_status svc current_user_email rag_stats).status
    if st = RAGStatus.idle then
      Except.ok (idleEnvelope, false, request_index svc current_user_email)
    else if st = RAGStatus.indexing then
      Except.ok (indexingEnvelope, false, svc)
    else if st = RAGStatus.error then
      Except.ok (errorEnvelope, false, svc)
    else
      Except.ok (answer_result, true, svc)

/-- A nonempty sample source record, shared by concrete instantiations. -/
def sampleSource : SourceRecord :=
  { email_id := str "1", sender := str "s", subject := str "sub", date := str "d",
    relevance := 50, is_urgent := false, has_deadline := false,
    deadline := str "None", text := str "t", timestamp := 0 }

/-- A sample normal answer with a nonempty sources array. -/
def sampleAnswer : AskResponse :=
  { answer := str "an answer", status := str "success", sources := [sampleSource],
    emails_found := some 1 }

/-- A sample successful stats call against a collection holding 5
chunks (e.g. persisted by an earlier process run), so the merged
`is_ready` flag is true. -/
def sampleStats : RagStats := get_stats (some 5) 0 300 3 false

/-- C1: the claim is false on the code. For a user whose status is
`error`, `/ask` does not run the degraded query path at all: it returns
a fixed envelope with an *empty* sources array (even though retrieval
would have produced sources), without invoking `answer_question`. Only
the flagging half of the claim holds (the envelope's answer says RAG
search may be incomplete). -/
theorem c1_counterexample :
    rag_ask ⟨[(str "u", RAGStatus.error)], [], []⟩ (str "u") (str "q")
        (some sampleStats) sampleAnswer =
      Except.ok (errorEnvelope, false, ⟨[(str "u", RAGStatus.error)], [], []⟩) ∧
    errorEnvelope.sources = [] ∧
    sampleAnswer.sources ≠ [] := by
  refine ⟨rfl, rfl, by decide⟩

/-- C1 (amended): for every user whose lifecycle status is `error`, a
POST /ask request with a nonempty question is answered by a fixed
envelope whose answer flags that RAG search may be incomplete, with
`status = "error"`, `is_ready = false` and an empty sources array;
`answer_question` (and hence retrieval) is not invoked. -/
theorem c1_amended (svc : ServiceState) (u question : Str)
    (stats : Option RagStats) (ans : AskResponse)
    (hq1 : question ≠ []) (hq2 : pyStrip question ≠ [])
    (herr : (get_status svc u stats).status = RAGStatus.error) :
    rag_ask svc u question stats ans = Except.ok (errorEnvelope, false, svc) := by
  unfold rag_ask
  rw [if_neg (by simp [hq1, hq2])]
  simp only [herr]
  rfl

/-- C1 amended witness. -/
theorem c1_amended_witness :
    rag_ask ⟨[(str "u", RAGStatus.error)], [], [str "v"]⟩ (str "u") (str "hello")
        (some sampleStats) sampleAnswer =
      Except.ok (errorEnvelope, false, ⟨[(str "u", RAGStatus.error)], [], [str "v"]⟩) :=
  c1_amended ⟨[(str "u", RAGStatus.error)], [], [str "v"]⟩ (str "u") (str "hello")
    (some sampleStats) sampleAnswer (by decide) (by decide) (by decide)

/-- C2: the claim is false on the code. From the concrete trace
(start indexing "u", index success, LLM rate limit detected at t = 2)
the user's lifecycle status is still `ready`, not `rate_limited`:
rate-limit detection never writes the status map. -/
theorem c2_counterexample :
    alistLookup
        (([Event.startAttempt (str "u") 1 0,
           Event.indexSuccess (str "u") 1 5 5 2 (str "ok"),
           Event.rateLimitDetected 2].foldl stepEvent initSystemState).service.status)
        (str "u") = some RAGStatus.ready ∧
    RAGStatus.ready ≠ RAGStatus.rate_limited := by
  refine ⟨by decide, by decide⟩

theorem stepEvent_no_rate_limited (s : SystemState) (e : Event)
    (h : ∀ u, alistLookup s.service.status u ≠ some RAGStatus.rate_limited) :
    ∀ u, alistLookup ((stepEvent s e).service.status) u ≠ some RAGStatus.rate_limited := by
  intro u
  cases e with
  | requestIndex v =>
      simpa [stepEvent, request_index] using h u
  | startAttempt v a t =>
      simp only [stepEvent, _set_status]
      rw [alistLookup_alistSet_eq]
      by_cases hv : v = u
      · simp [hv]
      · simpa [hv] using h u
  | indexSuccess v t e1 e2 dur msg =>
      simp only [stepEvent, _set_status]
      rw [alistLookup_alistSet_eq]
      by_cases hv : v = u
      · simp [hv]
      · simpa [hv] using h u
  | indexFailure v err t =>
      simp only [stepEvent, _set_status]
      rw [alistLookup_alistSet_eq]
      by_cases hv : v = u
      · simp [hv]
      · simpa [hv] using h u
  | rateLimitDetected t =>
      simpa [stepEvent] using h u

theorem foldl_no_rate_limited (evs : List Event) :
    ∀ s : SystemState,
      (∀ u, alistLookup s.service.status u ≠ some RAGStatus.rate_limited) →
      ∀ u, alistLookup ((evs.foldl stepEvent s).service.status) u ≠
        some RAGStatus.rate_limited := by
  induction evs with
  | nil =>
      intro s h u
      simpa using h u
  | cons e rest ih =>
      intro s h u
      exact ih (stepEvent s e) (stepEvent_no_rate_limited s e h) u

/-- C2 (amended): when an LLM rate limit is detected,
`rag_system.last_rate_limit` is set to the current time and the
lifecycle status map is left untouched; the resulting rate-limited
condition is time-bounded — `is_rate_limited` holds exactly while
`now − t < rate_limit_cooldown` (7200 s), so it clears when the
cooldown expires; and `rate_limited` is *not* a reachable value of the
per-user status map maintained by the background service (the enum
member is declared but never assigned). -/
theorem c2_amended :
    (∀ (s : SystemState) (t : ℚ),
        (stepEvent s (Event.rateLimitDetected t)).service = s.service ∧
        (stepEvent s (Event.rateLimitDetected t)).last_rate_limit = some t) ∧
    (∀ t now : ℚ,
        is_rate_limited (some t) now = decide (now - t < rate_limit_cooldown)) ∧
    (∀ (evs : List Event) (u : Str),
        alistLookup ((evs.foldl stepEvent initSystemState).service.status) u ≠
          some RAGStatus.rate_limited) := by
  refine ⟨fun s t => ⟨rfl, rfl⟩, fun t now => rfl, ?_⟩
  intro evs u
  exact foldl_no_rate_limited evs initSystemState (fun v => by simp [initSystemState,
    initServiceState, alistLookup]) u

/-- C2 amended witness: a cooldown that started at t = 0 is active at
t = 100 and cleared at t = 7200; a one-event trace keeps the status map
free of `rate_limited`. -/
theorem c2_amended_witness :
    (stepEvent initSystemState (Event.rateLimitDetected 0)).service = initServiceState ∧
    is_rate_limited (some 0) 100 = true ∧
    is_rate_limited (some 0) 7200 = false ∧
    alistLookup (([Event.startAttempt (str "u") 1 0].foldl stepEvent
        initSystemState).service.status) (str "u") ≠ some RAGStatus.rate_limited :=
  ⟨(c2_amended.1 initSystemState 0).1,
   by rw [c2_amended.2.1 0 100]
      simp only [decide_eq_true_eq, rate_limit_cooldown]
      norm_num,
   by rw [c2_amended.2.1 0 7200]
      simp only [decide_eq_false_iff_not, rate_limit_cooldown]
      norm_num,
   c2_amended.2.2 [Event.startAttempt (str "u") 1 0] (str "u")⟩

/-- C10: the claim's `is_ready = false` conjunct is false on the code.
`get_status` returns `{"status": ..., "is_ready": status == READY,
"is_indexing": ..., **progress, **rag_stats}` and a later duplicate key
wins in a Python dict literal, so the reported `is_ready` is
`get_stats`'s `total_chunks > 0` flag whenever the stats call succeeds.
The vector store is a persistent Chroma client, so a collection filled
in an earlier process run can hold chunks while the fresh in-memory
status map has no entry for the user: right after `request_index` the
report then shows status `idle` together with `is_ready = true`. -/
theorem c10_counterexample :
    (get_status (request_index initServiceState (str "u")) (str "u")
        (some sampleStats)).status = RAGStatus.idle ∧
    (get_status (request_index initServiceState (str "u")) (str "u")
        (some sampleStats)).is_ready = true ∧
    sampleStats.total_chunks = some 5 := by
  exact ⟨rfl, rfl, rfl⟩

/-- C10 (amended): `request_index` mutates only the pending set — the
status and progress maps are unchanged by it; for a user absent from
the status map, `get_status` right after `request_index` still reports
status `idle`, but the reported `is_ready` is the `**rag_stats`-merged
value — the vector-store `total_chunks > 0` flag when the stats call
succeeds (`status == ready`, hence false here, only when it fails) —
so it can be true for an idle user whose collection persisted from an
earlier run; a concurrent /ask in that window takes the idle branch
regardless (it gates on the `status` key, which the merge never
overrides), returning the indexing envelope and re-enqueueing the user
without invoking `answer_question`. -/
theorem c10_amended (s : ServiceState) (u question : Str)
    (stats : Option RagStats) (ans : AskResponse)
    (hu : alistLookup s.status u = none)
    (hq1 : question ≠ []) (hq2 : pyStrip question ≠ []) :
    (request_index s u).status = s.status ∧
    (request_index s u).progress = s.progress ∧
    (get_status (request_index s u) u stats).status = RAGStatus.idle ∧
    (get_status (request_index s u) u stats).is_ready =
      (stats.map RagStats.is_ready).getD false ∧
    (∀ (chunks cache_size : ℕ) (cache_ttl : ℚ) (indexed : ℕ) (rl : Bool),
        (get_stats (some chunks) cache_size cache_ttl indexed rl).is_ready =
          decide (0 < chunks)) ∧
    rag_ask (request_index s u) u question stats ans =
      Except.ok (idleEnvelope, false, request_index (request_index s u) u) := by
  have hframe1 : (request_index s u).status = s.status := rfl
  have hframe2 : (request_index s u).progress = s.progress := rfl
  have hidle : (get_status (request_index s u) u stats).status = RAGStatus.idle := by
    simp [get_status, hframe1, hu]
  have hready : (get_status (request_index s u) u stats).is_ready =
      (stats.map RagStats.is_ready).getD false := by
    cases stats with
    | none => simp [get_status, hframe1, hu]
    | some st => simp [get_status]
  refine ⟨hframe1, hframe2, hidle, hready, fun chunks cs ct ie rl => rfl, ?_⟩
  unfold rag_ask
  rw [if_neg (by simp [hq1, hq2])]
  simp only [hidle]
  rfl

/-- C10 amended witness: a never-indexed user on the empty initial
state, once with a failed stats call (`is_ready = false`) and once with
stats from a 5-chunk persisted collection (`is_ready` taken from the
merge); the /ask idle branch fires in both cases. -/
theorem c10_witness :
    (request_index initServiceState (str "u")).status = initServiceState.status ∧
    (get_status (request_index initServiceState (str "u")) (str "u") none).status =
      RAGStatus.idle ∧
    (get_status (request_index initServiceState (str "u")) (str "u") none).is_ready =
      false ∧
    (get_status (request_index initServiceState (str "u")) (str "u")
        (some sampleStats)).is_ready = sampleStats.is_ready ∧
    rag_ask (request_index initServiceState (str "u")) (str "u") (str "hi")
        (some sampleStats) sampleAnswer =
      Except.ok (idleEnvelope, false,
        request_index (request_index initServiceState (str "u")) (str "u")) := by
  have h1 := c10_amended initServiceState (str "u") (str "hi") none sampleAnswer
    (by decide) (by decide) (by decide)
  have h2 := c10_amended initServiceState (str "u") (str "hi") (some sampleStats)
    sampleAnswer (by decide) (by decide) (by decide)
  exact ⟨h1.1, h1.2.2.1, h1.2.2.2.1, h2.2.2.2.1, h2.2.2.2.2.2⟩

-- ---------------------------------------------------------------------------
-- Fallback answer and the answer_question rate-limit gate
-- (rag_service.py lines 670-690, 695-735, 737-904)
-- ---------------------------------------------------------------------------

/-- Decimal rendering of a natural number (Python f-string `{n}`). -/
def natToStr (n : ℕ) : Str := (Nat.repr n).data

/-- `enumerate(email_list[:10], 1)`. -/
def enumFrom (i : ℕ) : List RagResult → List (ℕ × RagResult)
  | [] => []
  | x :: xs => (i, x) :: enumFrom (i + 1) xs

/-- `InboxOnlyRAG.generate_fallback_answer` (the `question` argument is
unused by the source as well). -/
def generate_fallback_answer : List RagResult → Str → Str
  | [], _ => str "No relevant emails found."
  | [email], _ =>
      List.intercalate (str "\n")
        [str "**" ++ email.subject ++ str "**",
         str "From: " ++ email.sender,
         str "Date: " ++ email.date,
         str "\n" ++ email.text.take 500]
  | email_list, _ =>
      List.intercalate (str "\n")
        ((str "Found " ++ natToStr email_list.length ++ str " emails (newest first):\n") ::
          (enumFrom 1 (email_list.take 10)).flatMap (fun p =>
            [natToStr p.1 ++ str ". **" ++ p.2.subject ++ str "** - From: " ++ p.2.sender,
             str "   Date: " ++ p.2.date,
             str "   " ++ p.2.text.take 200 ++ str "...\n"]))

/-- Note appended on the pre-gate fallback branch (line 800). -/
def rateLimitNote : Str := str "\n\n_Note: LLM rate limited. Try again later._"

/-- Note appended on the rate-limit exception branch (line 890). -/
def rateLimitNote2 : Str := str "\n\n_Note: LLM rate limited. Try again in ~2 hours._"

/-- The backreference tokens of `contextualize_query`. -/
def contextBackrefTokens : List Str :=
  [str "he", str "she", str "they", str "it", str "that", str "this", str "those",
   str "the email", str "that email", str "when was", str "what did he",
   str "what did she", str "reply", str "same"]

/-- `needs_context` test of `contextualize_query`. -/
def needs_context (question : Str) : Bool :=
  contextBackrefTokens.any (fun w => isSubOf w (pyLower question))

/-- `contextualize_query` issues an LLM rewrite call iff the history is
nonempty and the question contains a backreference token. -/
def rewriteCalls (question : Str) (history_len : ℕ) : ℕ :=
  if history_len ≠ 0 && needs_context question then 1 else 0

/-- The `most recent | latest | newest | last` narrowing words. -/
def recentWords : List Str :=
  [str "most recent", str "latest", str "newest", str "last"]

/-- Narrowing step of `answer_question` (lines 789-792). -/
def narrowRecent (is_sender_query : Bool) (question_lower : Str)
    (email_list : List RagResult) : List RagResult :=
  if is_sender_query && recentWords.any (fun w => isSubOf w question_lower) then
    email_list.take 1
  else email_list

/-- Outcome of the LLM chat-completion call of `answer_question`. -/
inductive LlmOutcome where
  | ok (answer : Str)
  | exc (msg : Str)
deriving DecidableEq

/-- `answer_question` from the point where retrieval has produced
`retrieved`, given the rate-limit state `(last_rl, now)`, the sender
filter detected from the (possibly rewritten) query, and the LLM
outcome.  Returns the response, the number of LLM chat-completion calls
made by this invocation (rewrite call included), and the value of
`last_rate_limit` afterwards.  The metadata keys `question`,
`rewritten_question` and `matched_keywords` of the response dicts are
orthogonal to the claims and not modelled. -/
def answer_question_model (question search_question : Str) (history_len : ℕ)
    (sender_filter : Option Str) (retrieved : List RagResult)
    (last_rl : Option ℚ) (now : ℚ) (llm : LlmOutcome) :
    AskResponse × ℕ × Option ℚ :=
  let rw_calls := rewriteCalls question history_len
  if retrieved = [] then
    (match sender_filter with
     | some sf =>
        ({ answer := str "No emails found from " ++ str "'" ++ sf ++ str "'" ++
             str ". Please check the name or email address and try again."
           status := str "no_results", sources := [] }, rw_calls, last_rl)
     | none =>
        ({ answer := str "No relevant emails found in your inbox."
           status := str "no_results", sources := [] }, rw_calls, last_rl))
  else
    let email_list := narrowRecent sender_filter.isSome (pyLower question) retrieved
    if is_rate_limited last_rl now then
      ({ answer := generate_fallback_answer email_list search_question ++ rateLimitNote
         status := str "rate_limited"
         sources := _build_sources email_list
         emails_found := some email_list.length }, rw_calls, last_rl)
    else
      match llm with
      | LlmOutcome.ok a =>
          ({ answer := a, status := str "success"
             sources := _build_sources email_list
             emails_found := some email_list.length }, rw_calls + 1, last_rl)
      | LlmOutcome.exc m =>
          if isSubOf (str "rate_limit") (pyLower m) || isSubOf (str "429") m then
            ({ answer := generate_fallback_answer email_list search_question ++
                 rateLimitNote2
               status := str "rate_limited"
               sources := _build_sources email_list
               emails_found := some email_list.length }, rw_calls + 1, some now)
          else
            ({ answer := str "Error generating answer: " ++ m
               status := str "error", sources := [] }, rw_calls + 1, last_rl)

theorem narrowRecent_ne_nil (b : Bool) (q : Str) (l : List RagResult) (h : l ≠ []) :
    narrowRecent b q l ≠ [] := by
  unfold narrowRecent
  split_ifs
  · cases l with
    | nil => exact absurd rfl h
    | cons x xs => simp
  · exact h

/-- Sample retrieval record used in concrete instantiations. -/
def sampleResult : RagResult :=
  { text := str "body", email_id := str "1", sender := str "s", subject := str "sub",
    date := str "d", is_urgent := false, has_deadline := false,
    deadline_date := str "None", hybrid_score := 1/2, timestamp := 10 }

/-- C9: the claim is false in its "makes no LLM call" part. With the
LLM inside its cooldown window (rate limit at t = 0, query at t = 100 <
7200), one retrieved result, a nonempty conversation history and the
follow-up question `when was that?`, `answer_question` still makes one
LLM call: the history-rewrite call of `contextualize_query`, which runs
before the rate-limit gate. -/
theorem c9_counterexample :
    is_rate_limited (some 0) 100 = true ∧
    ([sampleResult] : List RagResult) ≠ [] ∧
    (answer_question_model (str "when was that?")
        (str "when was the budget report sent?") 2 none [sampleResult]
        (some 0) 100 (LlmOutcome.ok (str "x"))).2.1 ≠ 0 := by
  have hrl : is_rate_limited (some 0) 100 = true := by
    unfold is_rate_limited
    simp only [decide_eq_true_eq, rate_limit_cooldown]
    norm_num
  refine ⟨hrl, by decide, ?_⟩
  have h1 : ([sampleResult] : List RagResult) ≠ [] := by decide
  unfold answer_question_model
  rw [if_neg h1, if_pos hrl]
  simp only [rewriteCalls]
  rw [if_pos (by decide)]
  decide

/-- C9 (amended): if at query time the LLM is within its cooldown
window and retrieval returned at least one result, `answer_question`
makes no answer-generation LLM call (the only possible LLM call is the
conversation-rewrite call, made before the gate when the history is
nonempty and the question contains a backreference token) and returns
the deterministic fallback listing (after the most-recent narrowing)
as its answer with the rate-limit note appended, `status =
rate_limited`, a non-empty sources array built from the listed
results, and `last_rate_limit` unchanged. -/
theorem c9_amended (question search_question : Str) (history_len : ℕ)
    (sender_filter : Option Str) (retrieved : List RagResult)
    (last_rl : Option ℚ) (now : ℚ) (llm : LlmOutcome)
    (hrl : is_rate_limited last_rl now = true) (hne : retrieved ≠ []) :
    (answer_question_model question search_question history_len sender_filter
        retrieved last_rl now llm).1.answer =
      generate_fallback_answer
        (narrowRecent sender_filter.isSome (pyLower question) retrieved)
        search_question ++ rateLimitNote ∧
    (answer_question_model question search_question history_len sender_filter
        retrieved last_rl now llm).1.status = str "rate_limited" ∧
    (answer_question_model question search_question history_len sender_filter
        retrieved last_rl now llm).1.sources =
      _build_sources (narrowRecent sender_filter.isSome (pyLower question) retrieved) ∧
    (answer_question_model question search_question history_len sender_filter
        retrieved last_rl now llm).1.sources ≠ [] ∧
    (answer_question_model question search_question history_len sender_filter
        retrieved last_rl now llm).2.1 = rewriteCalls question history_len ∧
    (answer_question_model question search_question history_len sender_filter
        retrieved last_rl now llm).2.2 = last_rl := by
  have hout : answer_question_model question search_question history_len sender_filter
      retrieved last_rl now llm =
      ({ answer := generate_fallback_answer
           (narrowRecent sender_filter.isSome (pyLower question) retrieved)
           search_question ++ rateLimitNote
         status := str "rate_limited"
         sources := _build_sources
           (narrowRecent sender_filter.isSome (pyLower question) retrieved)
         emails_found := some (narrowRecent sender_filter.isSome (pyLower question)
           retrieved).length },
       rewriteCalls question history_len, last_rl) := by
    unfold answer_question_model
    rw [if_neg hne, if_pos hrl]
  have hsrc : _build_sources
      (narrowRecent sender_filter.isSome (pyLower question) retrieved) ≠ [] := by
    unfold _build_sources
    intro hcontra
    exact narrowRecent_ne_nil sender_filter.isSome (pyLower question) retrieved hne
      (List.map_eq_nil_iff.1 hcontra)
  rw [hout]
  exact ⟨rfl, rfl, rfl, hsrc, rfl, rfl⟩

/-- C9 amended witness: rate limited at t = 0, query at t = 100, one
retrieved record, empty history (so zero LLM calls). -/
theorem c9_amended_witness :
    (answer_question_model (str "latest email?") (str "latest email?") 0 none
        [sampleResult] (some 0) 100 (LlmOutcome.ok (str "x"))).1.status =
      str "rate_limited" ∧
    (answer_question_model (str "latest email?") (str "latest email?") 0 none
        [sampleResult] (some 0) 100 (LlmOutcome.ok (str "x"))).1.sources ≠ [] ∧
    (answer_question_model (str "latest email?") (str "latest email?") 0 none
        [sampleResult] (some 0) 100 (LlmOutcome.ok (str "x"))).2.1 =
      rewriteCalls (str "latest email?") 0 := by
  have h := c9_amended (str "latest email?") (str "latest email?") 0 none
    [sampleResult] (some 0) 100 (LlmOutcome.ok (str "x"))
    (by unfold is_rate_limited
        simp only [decide_eq_true_eq, rate_limit_cooldown]
        norm_num)
    (by decide)
  exact ⟨h.2.1, h.2.2.2.1, h.2.2.2.2.1⟩
